import Mathlib

/-!
Verification of the crawl-orchestration core of the `robin` dark-web OSINT
tool against its natural-language specification.

The Python source is shallowly embedded: pure computations become Lean
functions, the mutable pool/counter state becomes explicit state passing,
thread fan-in order becomes a universally quantified completion list, and
network I/O is injected as an explicit outcome/oracle parameter.  Machine
floats appear in the source only in `failures/total > 0.5`
(src/tor_pool.py), embedded as the exact rational comparison
`2 * failures > total`, which agrees with the float comparison for all
realistic counter magnitudes (below 2^52).
-/

set_option autoImplicit false

namespace Robin

/-! Search dispatcher (src/search.py)

A `SearchResult` models the `{"title": ..., "link": ...}` dictionaries that
the per-engine tasks of `get_search_results` produce.  A missing `link` key
(`res.get("link")` returning `None`) is modelled as the empty string, which
is falsy in Python exactly like `None`. -/

structure SearchResult where
  link : String
  title : String
deriving DecidableEq, Repr

/-- The deduplication loop of `get_search_results` (src/search.py:457-464):
`seen_links` starts empty, and an entry is appended to `unique_results`
iff its link is truthy (non-empty) and not seen before. -/
def dedupGo (seen : List String) : List SearchResult → List SearchResult
  | [] => []
  | r :: rest =>
    if r.link ≠ "" ∧ r.link ∉ seen then r :: dedupGo (r.link :: seen) rest
    else dedupGo seen rest

/-- Embeds `get_search_results` (src/search.py:389-467), restricted to its merge
step: the per-task result lists arrive in fan-in completion order
(`as_completed`), are concatenated by `results.extend(result_urls)`, and
are then deduplicated by link.  The completion order is non-deterministic,
so `taskOutputs` is universally quantified over all orders. -/
def get_search_results (taskOutputs : List (List SearchResult)) : List SearchResult :=
  dedupGo [] taskOutputs.flatten

/-! Egress pool (src/tor_pool.py)

`port_stats` is a `defaultdict`; membership tests (`port in
self.port_stats`) do not create entries, while indexing does.  The pool is
modelled with an explicit partial map `port_stats : Nat → Option PortStat`;
a `none` entry is a port never registered in the stats dictionary. -/

inductive HealthStatus where
  | unknown
  | healthy
  | unhealthy
deriving DecidableEq, Repr

/-- One value of the `port_stats` defaultdict (src/tor_pool.py:48-54). -/
structure PortStat where
  requests : Nat
  successes : Nat
  failures : Nat
  last_used : Nat
  health_status : HealthStatus
deriving DecidableEq, Repr

/-- The defaultdict default value (src/tor_pool.py:48-54). -/
def defaultStat : PortStat :=
  { requests := 0, successes := 0, failures := 0, last_used := 0,
    health_status := HealthStatus.unknown }

/-- State of a `TorPool` instance (src/tor_pool.py:26-61).  Timestamps are
abstract `Nat` ticks. -/
structure TorPool where
  start_port : Nat
  instance_count : Nat
  enabled : Bool
  ports : List Nat
  current_index : Nat
  port_stats : Nat → Option PortStat

/-- Embeds `TorPool.__init__` (src/tor_pool.py:26-61): with `enabled = false` the
instance count is forced to 1; ports are consecutive from `start_port`. -/
def TorPool.init (start_port instance_count : Nat) (enabled : Bool) : TorPool :=
  let count := if enabled then instance_count else 1
  { start_port := start_port
    instance_count := count
    enabled := enabled
    ports := List.range' start_port count
    current_index := 0
    port_stats := fun _ => none }

/-- Embeds `TorPool.get_available_port` (src/tor_pool.py:63-78): in single-instance
mode it returns `start_port` and touches nothing; otherwise it round-robins
and registers a request for the chosen port (creating the defaultdict entry
when absent). -/
def TorPool.get_available_port (pool : TorPool) (now : Nat) : Nat × TorPool :=
  if pool.enabled = false ∨ pool.instance_count = 1 then
    (pool.start_port, pool)
  else
    let port := pool.ports.getD pool.current_index 0
    let st := (pool.port_stats port).getD defaultStat
    let st' := { st with last_used := now, requests := st.requests + 1 }
    (port,
      { pool with
        current_index := (pool.current_index + 1) % pool.instance_count
        port_stats := fun q => if q = port then some st' else pool.port_stats q })

/-- Embeds `TorPool.record_success` (src/tor_pool.py:100-109): only acts when the
port is already a key of `port_stats`. -/
def TorPool.record_success (pool : TorPool) (port : Nat) : TorPool :=
  match pool.port_stats port with
  | none => pool
  | some st =>
    let st' := { st with successes := st.successes + 1,
                         health_status := HealthStatus.healthy }
    { pool with port_stats := fun q => if q = port then some st' else pool.port_stats q }

/-- Embeds `TorPool.record_failure` (src/tor_pool.py:111-125): only acts when the
port is already a key of `port_stats`; increments `failures`, then marks the
port unhealthy when `failures / requests > 0.5` with `requests > 0`
(exact rational form: `2 * failures > requests`). -/
def TorPool.record_failure (pool : TorPool) (port : Nat) : TorPool :=
  match pool.port_stats port with
  | none => pool
  | some st =>
    let st1 := { st with failures := st.failures + 1 }
    let st2 :=
      if 0 < st1.requests ∧ st1.requests < 2 * st1.failures then
        { st1 with health_status := HealthStatus.unhealthy }
      else st1
    { pool with port_stats := fun q => if q = port then some st2 else pool.port_stats q }

/-- Embeds `TorPool.get_healthy_ports` (src/tor_pool.py:190-206).  The loop keeps a
port if its cached status is `healthy`, or if it is `unknown` and the
synchronous probe `health_check_port` succeeds; if the collected list is
empty it falls back to the full port list.  The network probe is injected
as the oracle `probe`; `status` reads `port_stats[port]["health_status"]`
(with the defaultdict default `unknown` for unregistered ports). -/
def get_healthy_ports (ports : List Nat) (status : Nat → HealthStatus) (probe : Nat → Bool) :
    List Nat :=
  let healthy := ports.filter fun p =>
    status p = HealthStatus.healthy ∨ (status p = HealthStatus.unknown ∧ probe p = true)
  if healthy = [] then ports else healthy

/-! Scraper (src/scrape.py)

`scrape_single` is embedded twice, as two projections of the same body:
`scrape_single_result` gives the returned `(url, text)` pair as a function
of the network outcome (injected as a `NetOutcome` oracle, since the body
catches every exception class), and `scrape_single_events` gives the
counter-driven circuit-rotation behaviour of its Tor block
(src/scrape.py:113-128) as a function of the shared `request_counter`. -/

/-- Python `c.isspace()` / `str.split()` whitespace, ASCII range. -/
def pyIsSpace (c : Char) : Bool :=
  c == ' ' || c == '\t' || c == '\n' || c == '\r' || c == '\x0b' || c == '\x0c'

/-- Python `str.split()` with no separator: the maximal whitespace-free
words, in order.  `cur` accumulates the current word reversed. -/
def pyWordsGo (cur : List Char) : List Char → List (List Char)
  | [] => if cur.isEmpty then [] else [cur.reverse]
  | c :: cs =>
    if pyIsSpace c then
      if cur.isEmpty then pyWordsGo [] cs else cur.reverse :: pyWordsGo [] cs
    else pyWordsGo (c :: cur) cs

/-- Embeds `' '.join(scraped_text.split())` (src/scrape.py:148). -/
def normalize_ws (s : String) : String :=
  String.intercalate " " ((pyWordsGo [] s.data).map String.mk)

/-- Tests whether `needle` is a prefix of `hay` (character-wise). -/
def listStartsWith : List Char → List Char → Bool
  | [], _ => true
  | _ :: _, [] => false
  | a :: as, b :: bs => a == b && listStartsWith as bs

/-- Tests whether `needle` occurs contiguously somewhere in `hay`. -/
def listHasSub (needle : List Char) : List Char → Bool
  | [] => needle.isEmpty
  | c :: rest => listStartsWith needle (c :: rest) || listHasSub needle rest

/-- Python `needle in hay` on strings. -/
def strContains (hay needle : String) : Bool :=
  listHasSub needle.data hay.data

/-- Outcome of the `session.get` call inside `scrape_single`
(src/scrape.py:137), covering every except-arm of the body. -/
inductive NetOutcome where
  | success (status : Nat) (body : String)
  | timeout
  | connError
  | proxyError
  | reqError
  | otherError
deriving DecidableEq, Repr

/-- The outcomes the spec calls network failures or non-200 statuses. -/
def is_degraded_outcome : NetOutcome → Bool
  | NetOutcome.success status _ => status ≠ 200
  | _ => true

/-- Return value of `scrape_single` (src/scrape.py:69-203) as a function of
the injected network outcome.  `extract` abstracts the BeautifulSoup
script/style-stripping text extraction of lines 141-146.
`raise_for_status` raises `HTTPError` exactly for statuses 400-599, which
the except-arm turns into the title fallback; the `else` arm of
`status_code == 200` does the same for any remaining non-200 status. -/
def scrape_single_result (extract : String → String) (url_data : SearchResult)
    (outcome : NetOutcome) : String × String :=
  let url := url_data.link
  let title := url_data.title
  if url = "" then (url, title)
  else
    match outcome with
    | NetOutcome.success status body =>
      if 400 ≤ status ∧ status < 600 then (url, title)
      else if status = 200 then (url, normalize_ws (title ++ " " ++ extract body))
      else (url, title)
    | _ => (url, title)

/-- Default `TOR_ROTATE_INTERVAL` (src/config.py:16). -/
def TOR_ROTATE_INTERVAL : Nat := 5

/-- Embeds `rotation_interval = rotate_interval or TOR_ROTATE_INTERVAL`
(src/scrape.py:115): Python `or` falls back on `None` and on the falsy
interval `0`. -/
def resolve_interval : Option Nat → Nat
  | none => TOR_ROTATE_INTERVAL
  | some 0 => TOR_ROTATE_INTERVAL
  | some n => n

/-- Observable control events of one `scrape_single` call: a
`rotate_circuit()` call and the issued HTTP request. -/
inductive ScrapeEv where
  | rotate
  | request
deriving DecidableEq, Repr

/-- Rotation/request behaviour of one `scrape_single` call
(src/scrape.py:90-137): an empty url returns before any request; the
rotation block runs only for `.onion` urls with `rotate` set, increments
the shared counter under the lock, and calls `rotate_circuit()` before
`session.get` exactly when the incremented counter is a multiple of the
resolved interval and the controller is connected.  Returns the new
counter and the emitted events in body order. -/
def scrape_single_events (url : String) (rotate : Bool) (rotate_interval : Option Nat)
    (connected : Bool) (counter : Nat) : Nat × List ScrapeEv :=
  if url = "" then (counter, [])
  else if strContains url ".onion" then
    if rotate then
      let n := resolve_interval rotate_interval
      let counter' := counter + 1
      if (counter' % n = 0) ∧ connected = true then
        (counter', [ScrapeEv.rotate, ScrapeEv.request])
      else (counter', [ScrapeEv.request])
    else (counter, [ScrapeEv.request])
  else (counter, [ScrapeEv.request])

/-- Sequential composition of `scrape_single` calls sharing the rotation
counter (the counter updates are serialized by `counter_lock`). -/
def scrape_run (rotate : Bool) (rotate_interval : Option Nat) (connected : Bool)
    (counter : Nat) : List String → Nat × List (List ScrapeEv)
  | [] => (counter, [])
  | u :: us =>
    let r1 := scrape_single_events u rotate rotate_interval connected counter
    let r2 := scrape_run rotate rotate_interval connected r1.1 us
    (r2.1, r1.2 :: r2.2)

/-- Number of `rotate_circuit()` calls in a batch of event traces. -/
def rotationCount (evss : List (List ScrapeEv)) : Nat :=
  evss.flatten.countP (fun e => e == ScrapeEv.rotate)

/-- Rotation behaviour of `scrape_multiple` (src/scrape.py:224-228): each
worker runs `executor.submit(scrape_single, url_data)`, so `scrape_single`
is called with its defaults `rotate = False`, `rotate_interval = None`. -/
def scrape_multiple_events (connected : Bool) (counter : Nat) (urls : List String) :
    Nat × List (List ScrapeEv) :=
  scrape_run false none connected counter urls

/-- Embeds `content[:max_chars] + "..."` applied when `len(content) > max_chars`
(src/scrape.py:235-236). -/
def truncate (max_chars : Nat) (s : String) : String :=
  if max_chars < s.length then String.mk (s.data.take max_chars) ++ "..." else s

/-- Outcome of one worker future in `scrape_multiple`: either
`future.result()` returns the scraped content for the candidate's link, or
the worker raised (a programming error — `scrape_single` itself swallows
network errors). -/
inductive WorkerOutcome where
  | ok (content : String)
  | exc
deriving DecidableEq, Repr

/-- Value stored for one completed future (src/scrape.py:233-244): the
truncated content on success, or the candidate's raw title (not truncated)
in the except-arm. -/
def store_content (max_chars : Nat) (title : String) : WorkerOutcome → String
  | WorkerOutcome.ok c => truncate max_chars c
  | WorkerOutcome.exc => title

/-- Python dict assignment `results[url] = content`: overwrite in place if
the key exists, else append. -/
def dict_insert (m : List (String × String)) (k v : String) : List (String × String) :=
  if m.any (fun p => p.1 == k) then
    m.map (fun p => if p.1 == k then (k, v) else p)
  else m ++ [(k, v)]

/-- Aggregation loop of `scrape_multiple` (src/scrape.py:205-247) over the
futures in completion order (universally quantified, as `as_completed` is
non-deterministic).  Keys are the candidates' links: on success
`scrape_single` returns its input url unchanged, and the except-arm uses
`url_data.get('link', '')`. -/
def scrape_multiple (completions : List (SearchResult × WorkerOutcome))
    (max_chars : Nat) : List (String × String) :=
  completions.foldl
    (fun m c => dict_insert m c.1.link (store_content max_chars c.1.title c.2)) []

/-! Indicator merge (src/utils.py:343-359)

A Python `Dict[str, Set[str]]` is modelled as a map from type tag to an
optional value set: `none` means the key is absent (Python dict equality
distinguishes an absent key from a key bound to the empty set). -/

def IndicatorMap : Type := String → Option (Finset String)

/-- One outer iteration of `merge_iocs`: fold `d`'s entries into `merged`
(`merged.setdefault`-style insert then in-place set union). -/
def merge_step (merged d : IndicatorMap) : IndicatorMap := fun t =>
  match d t with
  | none => merged t
  | some v => some ((merged t).getD ∅ ∪ v)

/-- Embeds `merge_iocs(*ioc_dicts)` (src/utils.py:343-359): start from the empty
dict and fold every input in. -/
def merge_iocs (ds : List IndicatorMap) : IndicatorMap :=
  ds.foldl merge_step (fun _ => none)

/-! Indicator extraction (src/utils.py:190-229)

The `IOC_PATTERNS` regular expressions are embedded as a small regex AST
with a fuelled backtracking matcher reproducing Python `re` semantics for
the constructs these patterns use: character classes, concatenation,
prioritized alternation, greedy bounded/unbounded repetition, and the `\b`
word-boundary assertion.  `re.findall` is the standard left-to-right scan
collecting non-overlapping leftmost matches.  The fuel only bounds
backtracking depth and is passed large enough to be irrelevant for the
concrete evaluations below. -/

/-- Regex AST.  `rep lo hi r` is the greedy quantifier `r{lo,hi}`
(`hi = none` for unbounded); `r?` is `rep 0 (some 1) r` and `r+` is
`rep 1 none r`. -/
inductive RE where
  | eps
  | cls (p : Char → Bool)
  | cat (r1 r2 : RE)
  | alt (r1 r2 : RE)
  | rep (lo : Nat) (hi : Option Nat) (r : RE)
  | wb

/-- Python `\w` for ASCII text: `[a-zA-Z0-9_]`. -/
def isWordChar (c : Char) : Bool :=
  c.isAlpha || c.isDigit || c == '_'

/-- Backtracking matcher in continuation-passing style.  The continuation
receives the previous character (for `\b`) and the remaining input, and
returns the leftover input of the first overall success in Python's
priority order: left alternative first, greedy repetition longest first.
A repetition iteration that consumes nothing does not repeat further. -/
def reMatch : Nat → RE → Option Char → List Char →
    (Option Char → List Char → Option (List Char)) → Option (List Char)
  | 0, _, _, _, _ => none
  | _ + 1, RE.eps, prev, rest, k => k prev rest
  | _ + 1, RE.cls p, _, rest, k =>
    match rest with
    | [] => none
    | c :: cs => if p c then k (some c) cs else none
  | fuel + 1, RE.cat r1 r2, prev, rest, k =>
    reMatch fuel r1 prev rest (fun p2 rest2 => reMatch fuel r2 p2 rest2 k)
  | fuel + 1, RE.alt r1 r2, prev, rest, k =>
    match reMatch fuel r1 prev rest k with
    | some res => some res
    | none => reMatch fuel r2 prev rest k
  | _ + 1, RE.wb, prev, rest, k =>
    let pw := match prev with | some c => isWordChar c | none => false
    let nw := match rest with | c :: _ => isWordChar c | [] => false
    if pw ≠ nw then k prev rest else none
  | fuel + 1, RE.rep lo hi r, prev, rest, k =>
    match lo with
    | m + 1 =>
      reMatch fuel r prev rest
        (fun p2 rest2 => reMatch fuel (RE.rep m (hi.map (· - 1)) r) p2 rest2 k)
    | 0 =>
      match hi with
      | some 0 => k prev rest
      | _ =>
        match reMatch fuel r prev rest
            (fun p2 rest2 =>
              if rest2.length < rest.length then
                reMatch fuel (RE.rep 0 (hi.map (· - 1)) r) p2 rest2 k
              else none) with
        | some res => some res
        | none => k prev rest

/-- Try a match anchored at the current position; on success return the
matched characters and the remaining input. -/
def reFindAt (re : RE) (prev : Option Char) (rest : List Char) :
    Option (List Char × List Char) :=
  match reMatch 10000 re prev rest (fun _ leftover => some leftover) with
  | none => none
  | some leftover => some (rest.take (rest.length - leftover.length), leftover)

/-- The scan of `re.findall`: try each position left to right; on a
non-empty match, continue right after it (non-overlapping); otherwise
advance one character. -/
def findAllGo (fuel : Nat) (re : RE) (prev : Option Char) (rest : List Char) :
    List (List Char) :=
  match fuel with
  | 0 => []
  | fuel + 1 =>
    match reFindAt re prev rest with
    | some (matched, leftover) =>
      if matched.isEmpty then
        match rest with
        | [] => []
        | c :: cs => findAllGo fuel re (some c) cs
      else matched :: findAllGo fuel re matched.getLast? leftover
    | none =>
      match rest with
      | [] => []
      | c :: cs => findAllGo fuel re (some c) cs

/-- Embeds `pattern.findall(text)` (src/utils.py:224): these patterns have no
capturing groups, so `findall` returns the full matches. -/
def findall (re : RE) (text : String) : List String :=
  (findAllGo (text.data.length + 1) re none text.data).map String.mk

/-- Builds the regex for a single literal character. -/
def chrRE (c : Char) : RE := RE.cls (fun x => x == c)

/-- Builds the regex for a literal character sequence. -/
def litRE : List Char → RE
  | [] => RE.eps
  | c :: cs => RE.cat (chrRE c) (litRE cs)

/-- Greedy `r?`. -/
def optRE (r : RE) : RE := RE.rep 0 (some 1) r

/-- Greedy `r+`. -/
def plusRE (r : RE) : RE := RE.rep 1 none r

/-- Concatenation of a sequence of regexes. -/
def seqRE (rs : List RE) : RE := rs.foldr RE.cat RE.eps

/-- Character range test, e.g. `[0-9]`. -/
def inRange (lo hi c : Char) : Bool := decide (lo ≤ c ∧ c ≤ hi)

/-- Class `[0-9]`. -/
def isDigitCh (c : Char) : Bool := inRange '0' '9' c

/-- Class `[a-fA-F0-9]`. -/
def isHexCh (c : Char) : Bool :=
  inRange 'a' 'f' c || inRange 'A' 'F' c || isDigitCh c

/-- Class `[a-zA-Z]`. -/
def isAlphaCh (c : Char) : Bool := inRange 'a' 'z' c || inRange 'A' 'Z' c

/-- Class `[a-zA-Z0-9]`. -/
def isAlnumCh (c : Char) : Bool := isAlphaCh c || isDigitCh c

/-- One IPv4 octet, `(?:25[0-5]|2[0-4][0-9]|[01]?[0-9][0-9]?)`
(src/utils.py:191), with Python's left-to-right alternative priority. -/
def ipv4Octet : RE :=
  RE.alt (RE.cat (litRE "25".data) (RE.cls (inRange '0' '5')))
    (RE.alt (seqRE [chrRE '2', RE.cls (inRange '0' '4'), RE.cls isDigitCh])
      (seqRE [optRE (RE.cls (fun c => c == '0' || c == '1')),
              RE.cls isDigitCh, optRE (RE.cls isDigitCh)]))

/-- Pattern `ipv4` (src/utils.py:191):
the octet group repeated `{3}` with dots, a final octet, in `\b ... \b`. -/
def ipv4RE : RE :=
  seqRE [RE.wb, RE.rep 3 (some 3) (RE.cat ipv4Octet (chrRE '.')), ipv4Octet, RE.wb]

/-- Pattern `ipv6` (src/utils.py:192):
`\b(?:[0-9a-fA-F]{1,4}:){7}[0-9a-fA-F]{1,4}\b`. -/
def ipv6RE : RE :=
  seqRE [RE.wb,
    RE.rep 7 (some 7) (RE.cat (RE.rep 1 (some 4) (RE.cls isHexCh)) (chrRE ':')),
    RE.rep 1 (some 4) (RE.cls isHexCh), RE.wb]

/-- One DNS label, `[a-zA-Z0-9](?:[a-zA-Z0-9-]{0,61}[a-zA-Z0-9])?`
(src/utils.py:193). -/
def domainLabel : RE :=
  RE.cat (RE.cls isAlnumCh)
    (optRE (RE.cat (RE.rep 0 (some 61) (RE.cls (fun c => isAlnumCh c || c == '-')))
      (RE.cls isAlnumCh)))

/-- Pattern `domain` (src/utils.py:193):
`\b(?:<label>\.)+[a-zA-Z]{2,}\b`. -/
def domainRE : RE :=
  seqRE [RE.wb, plusRE (RE.cat domainLabel (chrRE '.')),
    RE.rep 2 none (RE.cls isAlphaCh), RE.wb]

/-- Pattern `onion` (src/utils.py:194): `\b[a-z2-7]{16,56}\.onion\b`. -/
def onionRE : RE :=
  seqRE [RE.wb,
    RE.rep 16 (some 56) (RE.cls (fun c => inRange 'a' 'z' c || inRange '2' '7' c)),
    litRE ".onion".data, RE.wb]

/-- Class `[a-zA-Z0-9._%+-]` (email local part). -/
def emailLocalCh (c : Char) : Bool :=
  isAlnumCh c || c == '.' || c == '_' || c == '%' || c == '+' || c == '-'

/-- Class `[a-zA-Z0-9.-]` (email domain part). -/
def emailDomCh (c : Char) : Bool := isAlnumCh c || c == '.' || c == '-'

/-- Pattern `email` (src/utils.py:195):
`\b[a-zA-Z0-9._%+-]+@[a-zA-Z0-9.-]+\.[a-zA-Z]{2,}\b`. -/
def emailRE : RE :=
  seqRE [RE.wb, plusRE (RE.cls emailLocalCh), chrRE '@',
    plusRE (RE.cls emailDomCh), chrRE '.', RE.rep 2 none (RE.cls isAlphaCh), RE.wb]

/-- Class of characters allowed after `https?://` (src/utils.py:196): any
character not whitespace and not one of the excluded punctuation marks. -/
def urlCh (c : Char) : Bool :=
  !(pyIsSpace c || c == '<' || c == '>' || c == '"' || c == '\x7b' || c == '\x7d' ||
    c == '|' || c == '\\' || c == '^' || c == '\x60' || c == '[' || c == ']')

/-- Pattern `url` (src/utils.py:196): `https?://` then one or more allowed
characters (no word-boundary anchors). -/
def urlRE : RE :=
  seqRE [litRE "http".data, optRE (chrRE 's'), litRE "://".data, plusRE (RE.cls urlCh)]

/-- Pattern `md5` (src/utils.py:197): `\b[a-fA-F0-9]{32}\b`. -/
def md5RE : RE := seqRE [RE.wb, RE.rep 32 (some 32) (RE.cls isHexCh), RE.wb]

/-- Pattern `sha1` (src/utils.py:198): `\b[a-fA-F0-9]{40}\b`. -/
def sha1RE : RE := seqRE [RE.wb, RE.rep 40 (some 40) (RE.cls isHexCh), RE.wb]

/-- Pattern `sha256` (src/utils.py:199): `\b[a-fA-F0-9]{64}\b`. -/
def sha256RE : RE := seqRE [RE.wb, RE.rep 64 (some 64) (RE.cls isHexCh), RE.wb]

/-- Class `[a-km-zA-HJ-NP-Z1-9]` (base58, src/utils.py:200). -/
def btcCh (c : Char) : Bool :=
  inRange 'a' 'k' c || inRange 'm' 'z' c || inRange 'A' 'H' c ||
  inRange 'J' 'N' c || inRange 'P' 'Z' c || inRange '1' '9' c

/-- Pattern `bitcoin` (src/utils.py:200): `\b[13][a-km-zA-HJ-NP-Z1-9]{25,34}\b`. -/
def bitcoinRE : RE :=
  seqRE [RE.wb, RE.cls (fun c => c == '1' || c == '3'),
    RE.rep 25 (some 34) (RE.cls btcCh), RE.wb]

/-- Pattern `ethereum` (src/utils.py:201): `\b0x[a-fA-F0-9]{40}\b`. -/
def ethereumRE : RE :=
  seqRE [RE.wb, litRE "0x".data, RE.rep 40 (some 40) (RE.cls isHexCh), RE.wb]

/-- Class `[-.\s]` (phone separators, src/utils.py:202). -/
def phoneSep (c : Char) : Bool := c == '-' || c == '.' || pyIsSpace c

/-- Pattern `phone` (src/utils.py:202):
optional `+?1` with separator, then 3-3-4 digit groups with optional
parentheses and separators, in `\b ... \b`. -/
def phoneRE : RE :=
  seqRE [RE.wb,
    optRE (seqRE [optRE (chrRE '+'), chrRE '1', optRE (RE.cls phoneSep)]),
    optRE (chrRE '('), RE.rep 3 (some 3) (RE.cls isDigitCh), optRE (chrRE ')'),
    optRE (RE.cls phoneSep), RE.rep 3 (some 3) (RE.cls isDigitCh),
    optRE (RE.cls phoneSep), RE.rep 4 (some 4) (RE.cls isDigitCh), RE.wb]

/-- The `IOC_PATTERNS` catalog (src/utils.py:190-203), in dict insertion
order. -/
def IOC_PATTERNS : List (String × RE) :=
  [("ipv4", ipv4RE), ("ipv6", ipv6RE), ("domain", domainRE), ("onion", onionRE),
   ("email", emailRE), ("url", urlRE), ("md5", md5RE), ("sha1", sha1RE),
   ("sha256", sha256RE), ("bitcoin", bitcoinRE), ("ethereum", ethereumRE),
   ("phone", phoneRE)]

/-- Python `set(matches)` represented canonically as the match list with
later duplicates removed (first occurrence kept). -/
def dedupFirstGo (seen : List String) : List String → List String
  | [] => []
  | s :: rest =>
    if s ∈ seen then dedupFirstGo seen rest
    else s :: dedupFirstGo (s :: seen) rest

/-- Embeds `extract_iocs` (src/utils.py:206-229): for each requested type
(default: every key of `IOC_PATTERNS`, in catalog order), run `findall`
and record the non-empty match sets; types with no match are omitted from
the returned dict, whose keys appear in insertion order. -/
def extract_iocs (text : String) (ioc_types : Option (List String)) :
    List (String × List String) :=
  let types := match ioc_types with
    | none => IOC_PATTERNS.map (fun (p : String × RE) => p.1)
    | some ts => ts
  types.foldl
    (fun acc t =>
      match IOC_PATTERNS.find? (fun (p : String × RE) => p.1 == t) with
      | none => acc
      | some pr =>
        let ms := findall pr.2 text
        if ms.isEmpty then acc else acc ++ [(t, dedupFirstGo [] ms)])
    []

/-- The extraction-scenario input text fixed by the specification. -/
def iocInput : String :=
  "Contact admin@example.com at 1.2.3.4, hash d41d8cd98f00b204e9800998ecf8427e (MD5), BTC 1A1zP1eP5QGefi2DMPTfTL5SLmv7DivfNa"

/-- A candidate title longer than the default 1200-character content limit
plus the 3-character truncation marker. -/
def longTitle : String := String.mk (List.replicate 1204 'a')

/-! Lemmas about the dedup loop of the search dispatcher. -/

theorem dedupGo_mem (xs : List SearchResult) :
    ∀ (seen : List String), ∀ r ∈ dedupGo seen xs, r.link ∉ seen ∧ r.link ≠ "" := by
  induction xs with
  | nil => intro seen r hr; simp [dedupGo] at hr
  | cons a rest ih =>
    intro seen r hr
    simp only [dedupGo] at hr
    by_cases h : a.link ≠ "" ∧ a.link ∉ seen
    · rw [if_pos h] at hr
      rcases List.mem_cons.mp hr with rfl | hr'
      · exact ⟨h.2, h.1⟩
      · have h2 := ih _ r hr'
        exact ⟨fun hs => h2.1 (List.mem_cons_of_mem _ hs), h2.2⟩
    · rw [if_neg h] at hr
      exact ih _ r hr

theorem dedupGo_nodup (xs : List SearchResult) :
    ∀ (seen : List String), ((dedupGo seen xs).map (fun r => r.link)).Nodup := by
  induction xs with
  | nil => intro seen; simp [dedupGo]
  | cons a rest ih =>
    intro seen
    simp only [dedupGo]
    by_cases h : a.link ≠ "" ∧ a.link ∉ seen
    · rw [if_pos h]
      refine List.nodup_cons.mpr ⟨?_, ih _⟩
      intro hmem
      rcases List.mem_map.mp hmem with ⟨r, hr, hlink⟩
      exact (dedupGo_mem rest _ r hr).1 (hlink ▸ List.mem_cons_self _ _)
    · rw [if_neg h]
      exact ih _

theorem dedupGo_find (xs : List SearchResult) :
    ∀ (seen : List String) (l : String), l ≠ "" → l ∉ seen →
      (dedupGo seen xs).find? (fun r => r.link == l) = xs.find? (fun r => r.link == l) := by
  induction xs with
  | nil => intro seen l _ _; rfl
  | cons a rest ih =>
    intro seen l hl hseen
    simp only [dedupGo]
    by_cases h : a.link ≠ "" ∧ a.link ∉ seen
    · rw [if_pos h]
      by_cases heq : a.link = l
      · simp [List.find?, heq]
      · have hpred : (a.link == l) = false := by simp [heq]
        rw [List.find?_cons_of_neg _ (by simp [hpred]), List.find?_cons_of_neg _ (by simp [hpred])]
        exact ih _ l hl (by
          intro hmem
          rcases List.mem_cons.mp hmem with h1 | h2
          · exact heq h1.symm
          · exact hseen h2)
    · rw [if_neg h]
      have hne : a.link ≠ l := by
        intro he
        rcases not_and_or.mp h with h1 | h2
        · exact hl (he ▸ (not_not.mp h1))
        · exact hseen (he ▸ (not_not.mp h2))
      have hpred : (a.link == l) = false := by simp [hne]
      rw [List.find?_cons_of_neg _ (by simp [hpred])]
      exact ih _ l hl hseen

theorem dedupGo_countP_zero (xs : List SearchResult) :
    ∀ (seen : List String) (l : String), l ∈ seen ∨ l = "" →
      (dedupGo seen xs).countP (fun r => r.link == l) = 0 := by
  intro seen l hl
  rw [List.countP_eq_zero]
  intro r hr hcontra
  have hm := dedupGo_mem xs seen r hr
  have heq : r.link = l := by simpa using hcontra
  rcases hl with h1 | h2
  · exact hm.1 (heq ▸ h1)
  · exact hm.2 (heq.trans h2)

theorem dedupGo_countP (xs : List SearchResult) :
    ∀ (seen : List String) (l : String), l ≠ "" → l ∉ seen →
      (dedupGo seen xs).countP (fun r => r.link == l)
        = if xs.any (fun r => r.link == l) then 1 else 0 := by
  induction xs with
  | nil => intro seen l _ _; rfl
  | cons a rest ih =>
    intro seen l hl hseen
    simp only [dedupGo]
    by_cases h : a.link ≠ "" ∧ a.link ∉ seen
    · rw [if_pos h]
      by_cases heq : a.link = l
      · have hpred : (a.link == l) = true := by simp [heq]
        rw [List.countP_cons_of_pos _ _ (by simpa using hpred)]
        rw [dedupGo_countP_zero rest _ l (Or.inl (heq ▸ List.mem_cons_self _ _))]
        simp [List.any_cons, hpred]
      · have hpred : (a.link == l) = false := by simp [heq]
        rw [List.countP_cons_of_neg _ _ (by simp [hpred])]
        rw [ih _ l hl (by
          intro hmem
          rcases List.mem_cons.mp hmem with h1 | h2
          · exact heq h1.symm
          · exact hseen h2)]
        simp [List.any_cons, hpred]
    · rw [if_neg h]
      have hne : a.link ≠ l := by
        intro he
        rcases not_and_or.mp h with h1 | h2
        · exact hl (he ▸ (not_not.mp h1))
        · exact hseen (he ▸ (not_not.mp h2))
      have hpred : (a.link == l) = false := by simp [hne]
      rw [ih _ l hl hseen]
      simp [List.any_cons, hpred]

/-- C1 (amended): the merge step of `get_search_results` never keeps two
entries with the same link; every kept entry has a non-empty link; and for
every non-empty link, the first-seen entry (in fan-in order) is the one
kept, exactly once if the link occurs at all.  Entries whose link is empty
or missing are dropped, so they yield no merged entry. -/
theorem get_search_results_dedup (taskOutputs : List (List SearchResult)) :
    ((get_search_results taskOutputs).map (fun r => r.link)).Nodup
    ∧ (∀ r ∈ get_search_results taskOutputs, r.link ≠ "")
    ∧ (∀ l : String, l ≠ "" →
        (get_search_results taskOutputs).find? (fun r => r.link == l)
            = taskOutputs.flatten.find? (fun r => r.link == l)
          ∧ (get_search_results taskOutputs).countP (fun r => r.link == l)
            = if taskOutputs.flatten.any (fun r => r.link == l) then 1 else 0) := by
  refine ⟨dedupGo_nodup _ _, ?_, ?_⟩
  · intro r hr
    exact (dedupGo_mem taskOutputs.flatten [] r hr).2
  · intro l hl
    exact ⟨dedupGo_find taskOutputs.flatten [] l hl (List.not_mem_nil l),
           dedupGo_countP taskOutputs.flatten [] l hl (List.not_mem_nil l)⟩

/-- Witness for C1 at a concrete fan-in: two tasks both return link `"a"`
with different titles; the merged list keeps exactly one entry for `"a"`,
the first-seen one. -/
theorem get_search_results_dedup_witness :
    (get_search_results [[⟨"a", "t1"⟩], [⟨"a", "t2"⟩]]).countP (fun r => r.link == "a") = 1
    ∧ (get_search_results [[⟨"a", "t1"⟩], [⟨"a", "t2"⟩]]).find? (fun r => r.link == "a")
        = some ⟨"a", "t1"⟩ := by
  have h := (get_search_results_dedup [[⟨"a", "t1"⟩], [⟨"a", "t2"⟩]]).2.2 "a" (by decide)
  constructor
  · rw [h.2]; decide
  · rw [h.1]; decide

/-- Counterexample for C1 as stated: an entry whose link is empty (or
missing, which `res.get("link")` also surfaces as falsy) is dropped by the
merge step, so a distinct link present in the task outputs can end up with
zero merged entries rather than exactly one. -/
theorem get_search_results_dedup_counterexample :
    ¬ (∀ (taskOutputs : List (List SearchResult)) (l : String),
        taskOutputs.flatten.any (fun r => r.link == l) = true →
        (get_search_results taskOutputs).countP (fun r => r.link == l) = 1) := by
  intro h
  exact absurd (h [[⟨"", "t"⟩]] "" (by decide)) (by decide)

/-- C3: `get_healthy_ports` keeps exactly the ports whose cached status is
healthy or whose unknown status probes healthy; when no port qualifies —
in particular when every port is unhealthy — it returns the full port
list, and it never returns an empty selection for a non-empty pool. -/
theorem get_healthy_ports_spec (ports : List Nat) (status : Nat → HealthStatus)
    (probe : Nat → Bool) :
    (∀ p ∈ get_healthy_ports ports status probe, p ∈ ports)
    ∧ ((∃ p ∈ ports, status p = HealthStatus.healthy
          ∨ (status p = HealthStatus.unknown ∧ probe p = true)) →
        ∀ p : Nat, p ∈ get_healthy_ports ports status probe ↔
          p ∈ ports ∧ (status p = HealthStatus.healthy
            ∨ (status p = HealthStatus.unknown ∧ probe p = true)))
    ∧ ((∀ p ∈ ports, status p = HealthStatus.unhealthy) →
        get_healthy_ports ports status probe = ports)
    ∧ (ports ≠ [] → get_healthy_ports ports status probe ≠ []) := by
  unfold get_healthy_ports
  set f := fun p =>
    decide (status p = HealthStatus.healthy ∨ (status p = HealthStatus.unknown ∧ probe p = true))
  refine ⟨?_, ?_, ?_, ?_⟩
  · intro p hp
    by_cases he : ports.filter f = []
    · rw [if_pos he] at hp; exact hp
    · rw [if_neg he] at hp; exact (List.mem_filter.mp hp).1
  · intro hex p
    have hne : ports.filter f ≠ [] := by
      rcases hex with ⟨q, hq, hqs⟩
      exact List.ne_nil_of_mem (List.mem_filter.mpr ⟨hq, by simpa [f] using hqs⟩)
    rw [if_neg hne]
    constructor
    · intro hp
      have h2 := List.mem_filter.mp hp
      exact ⟨h2.1, by simpa [f] using h2.2⟩
    · intro hp
      exact List.mem_filter.mpr ⟨hp.1, by simpa [f] using hp.2⟩
  · intro hall
    have he : ports.filter f = [] := by
      rw [List.filter_eq_nil_iff]
      intro p hp
      simp [f, hall p hp]
    rw [if_pos he]
  · intro hne
    by_cases he : ports.filter f = []
    · rw [if_pos he]; exact hne
    · rw [if_neg he]; exact he

/-- Witness for C3: a two-port pool where every port is unhealthy still
selects the full port list. -/
theorem get_healthy_ports_spec_witness :
    get_healthy_ports [9050, 9051] (fun _ => HealthStatus.unhealthy) (fun _ => true)
      = [9050, 9051] :=
  (get_healthy_ports_spec [9050, 9051] (fun _ => HealthStatus.unhealthy)
    (fun _ => true)).2.2.1 (by decide)

/-- C4: for a registered port, `record_failure` increments the failure
count (leaving requests and successes unchanged) and sets the health
status to unhealthy exactly when the post-increment failure-to-request
rate exceeds one half; otherwise the status is left unchanged.  In
particular, with at least 2 recorded requests, a rate above 50% flips the
status to unhealthy and a rate of exactly 50% leaves it unchanged. -/
theorem record_failure_spec (pool : TorPool) (port : Nat) (st : PortStat)
    (h : pool.port_stats port = some st) :
    ∃ st', (pool.record_failure port).port_stats port = some st'
      ∧ st'.failures = st.failures + 1
      ∧ st'.requests = st.requests
      ∧ st'.successes = st.successes
      ∧ st'.health_status =
          (if 0 < st.requests ∧ st.requests < 2 * (st.failures + 1)
           then HealthStatus.unhealthy else st.health_status)
      ∧ (2 ≤ st.requests →
          (st.requests < 2 * (st.failures + 1) → st'.health_status = HealthStatus.unhealthy)
          ∧ (st.requests = 2 * (st.failures + 1) → st'.health_status = st.health_status)) := by
  unfold TorPool.record_failure
  rw [h]
  by_cases hc : 0 < st.requests ∧ st.requests < 2 * (st.failures + 1)
  · refine ⟨{ st with failures := st.failures + 1, health_status := HealthStatus.unhealthy }, by simp [hc], rfl, rfl, rfl, by simp [hc], ?_⟩
    intro _
    exact ⟨fun _ => rfl, fun he => absurd hc (by omega)⟩
  · refine ⟨{ st with failures := st.failures + 1 },
      by simp [hc], rfl, rfl, rfl, by simp [hc], ?_⟩
    intro h2
    exact ⟨fun hlt => absurd ⟨by omega, hlt⟩ hc, fun _ => rfl⟩

/-- Witness for C4: a port with 2 requests and 1 prior failure: the second
failure makes the rate 2/2 > 0.5 and flips the status to unhealthy. -/
theorem record_failure_spec_witness :
    ∃ st', (TorPool.record_failure
        { start_port := 9050, instance_count := 1, enabled := false, ports := [9050],
          current_index := 0,
          port_stats := fun p => if p = 9050 then
            some { requests := 2, successes := 1, failures := 1, last_used := 0,
                   health_status := HealthStatus.healthy } else none }
        9050).port_stats 9050 = some st'
      ∧ st'.failures = 2 ∧ st'.requests = 2 ∧ st'.successes = 1
      ∧ st'.health_status = HealthStatus.unhealthy := by
  have h := record_failure_spec
    { start_port := 9050, instance_count := 1, enabled := false, ports := [9050],
      current_index := 0,
      port_stats := fun p => if p = 9050 then
        some { requests := 2, successes := 1, failures := 1, last_used := 0,
               health_status := HealthStatus.healthy } else none }
    9050
    { requests := 2, successes := 1, failures := 1, last_used := 0,
      health_status := HealthStatus.healthy }
    (by decide)
  rcases h with ⟨st', h1, h2, h3, h4, h5, _⟩
  exact ⟨st', h1, by rw [h2], by rw [h3], by rw [h4], by rw [h5]; decide⟩

/-- C10: recording a success or failure for a port that was never
registered in `port_stats` is a no-op on the whole pool state; in default
single-instance mode `get_available_port` returns the start port without
registering anything; and a freshly constructed pool has no port
registered at all. -/
theorem unregistered_port_noop (pool : TorPool) (port now : Nat)
    (h : pool.port_stats port = none) :
    pool.record_success port = pool
    ∧ pool.record_failure port = pool
    ∧ (pool.enabled = false → pool.get_available_port now = (pool.start_port, pool))
    ∧ (∀ sp ic q : Nat, (TorPool.init sp ic false).port_stats q = none
         ∧ (TorPool.init sp ic false).enabled = false) := by
  refine ⟨?_, ?_, ?_, ?_⟩
  · unfold TorPool.record_success; rw [h]
  · unfold TorPool.record_failure; rw [h]
  · intro he
    unfold TorPool.get_available_port
    rw [if_pos (Or.inl he)]
  · intro sp ic q
    exact ⟨rfl, rfl⟩

/-- Witness for C10: on the freshly constructed default pool, success and
failure records for the start port change nothing, and port selection
returns the start port. -/
theorem unregistered_port_noop_witness :
    (TorPool.init 9050 3 false).record_success 9050 = TorPool.init 9050 3 false
    ∧ (TorPool.init 9050 3 false).record_failure 9050 = TorPool.init 9050 3 false
    ∧ (TorPool.init 9050 3 false).get_available_port 0 = (9050, TorPool.init 9050 3 false) := by
  have h := unregistered_port_noop (TorPool.init 9050 3 false) 9050 0 rfl
  exact ⟨h.1, h.2.1, h.2.2.1 rfl⟩

/-- C2: `scrape_single` degrades every network failure (timeout,
connection error, proxy error, request error, unexpected exception) and
every non-200 status — including the 4xx/5xx statuses that
`raise_for_status` turns into `HTTPError` — to the pair
`(url, title)`; no exception propagates because every arm produces a
return value. -/
theorem scrape_single_degraded (extract : String → String) (url_data : SearchResult)
    (outcome : NetOutcome) (h : is_degraded_outcome outcome = true) :
    scrape_single_result extract url_data outcome = (url_data.link, url_data.title) := by
  cases outcome with
  | success status body =>
    have hs : status ≠ 200 := by simpa [is_degraded_outcome] using h
    simp only [scrape_single_result]
    split_ifs <;> rfl
  | timeout => simp [scrape_single_result]
  | connError => simp [scrape_single_result]
  | proxyError => simp [scrape_single_result]
  | reqError => simp [scrape_single_result]
  | otherError => simp [scrape_single_result]

/-- Witness for C2: a forced timeout on a concrete onion candidate
returns `(url, title)`. -/
theorem scrape_single_degraded_witness :
    is_degraded_outcome NetOutcome.timeout = true
    ∧ scrape_single_result id ⟨"http://abc.onion", "Title"⟩ NetOutcome.timeout
        = ("http://abc.onion", "Title") :=
  ⟨rfl, scrape_single_degraded id ⟨"http://abc.onion", "Title"⟩ NetOutcome.timeout rfl⟩

/-! Lemmas about the rotation counter. -/

/-- The resolved rotation interval is always positive. -/
theorem resolve_interval_pos (ri : Option Nat) : 0 < resolve_interval ri := by
  cases ri with
  | none => decide
  | some n => cases n with
    | zero => decide
    | succ m => simp [resolve_interval]

/-- One `scrape_single` call on a non-empty url emits either a bare
request or a rotation immediately followed by the request it covers. -/
theorem scrape_single_events_shape (url : String) (rotate : Bool) (ri : Option Nat)
    (connected : Bool) (counter : Nat) (hne : url ≠ "") :
    (scrape_single_events url rotate ri connected counter).2 = [ScrapeEv.request]
    ∨ (scrape_single_events url rotate ri connected counter).2
        = [ScrapeEv.rotate, ScrapeEv.request] := by
  simp only [scrape_single_events, if_neg hne]
  by_cases ho : strContains url ".onion" = true <;>
    by_cases hr : rotate = true <;>
    by_cases hm : ((counter + 1) % resolve_interval ri = 0) ∧ connected = true <;>
    simp [ho, hr, hm]

/-- With rotation disabled, a `scrape_single` call never rotates. -/
theorem scrape_single_events_no_rotate (url : String) (ri : Option Nat)
    (connected : Bool) (counter : Nat) :
    ((scrape_single_events url false ri connected counter).2.countP
      (fun e => e == ScrapeEv.rotate)) = 0
    ∧ (scrape_single_events url false ri connected counter).1 = counter := by
  by_cases he : url = "" <;>
    by_cases ho : strContains url ".onion" = true <;>
    simp [scrape_single_events, he, ho]

/-- The rotation count of a batch splits off its head trace. -/
theorem rotationCount_cons (evs : List ScrapeEv) (rest : List (List ScrapeEv)) :
    rotationCount (evs :: rest)
      = evs.countP (fun e => e == ScrapeEv.rotate) + rotationCount rest := by
  simp [rotationCount, List.countP_append]

/-- Counting lemma for the counter-driven policy: over `k` consecutive
onion scrapes with `rotate = true` and a connected controller, starting
from counter value `c`, the counter advances to `c + k` and the number of
rotation calls is the number of multiples of the interval in
`(c, c + k]`. -/
theorem scrape_run_replicate_rot (url : String) (hne : url ≠ "")
    (hon : strContains url ".onion" = true) (ri : Option Nat) (k : Nat) :
    ∀ c : Nat,
      (scrape_run true ri true c (List.replicate k url)).1 = c + k
      ∧ rotationCount (scrape_run true ri true c (List.replicate k url)).2
          = (c + k) / resolve_interval ri - c / resolve_interval ri := by
  induction k with
  | zero => intro c; simp [scrape_run, rotationCount]
  | succ m ih =>
    intro c
    have hstep : scrape_single_events url true ri true c
        = if ((c + 1) % resolve_interval ri = 0)
          then (c + 1, [ScrapeEv.rotate, ScrapeEv.request])
          else (c + 1, [ScrapeEv.request]) := by
      by_cases hm : (c + 1) % resolve_interval ri = 0 <;>
        simp [scrape_single_events, hne, hon, hm]
    have hsd := Nat.succ_div c (resolve_interval ri)
    have hdvd : (resolve_interval ri ∣ c + 1) ↔ ((c + 1) % resolve_interval ri = 0) :=
      Nat.dvd_iff_mod_eq_zero
    have hmono1 : c / resolve_interval ri ≤ (c + 1) / resolve_interval ri :=
      Nat.div_le_div_right (by omega)
    have hmono2 : (c + 1) / resolve_interval ri ≤ (c + (m + 1)) / resolve_interval ri :=
      Nat.div_le_div_right (by omega)
    have ihc := ih (c + 1)
    have harg : c + 1 + m = c + (m + 1) := by omega
    rw [harg] at ihc
    have hc1 : ([ScrapeEv.rotate, ScrapeEv.request].countP (fun e => e == ScrapeEv.rotate)) = 1 := by
      decide
    have hc2 : ([ScrapeEv.request].countP (fun e => e == ScrapeEv.rotate)) = 0 := by decide
    simp only [List.replicate_succ, scrape_run]
    rw [hstep]
    by_cases hmod : (c + 1) % resolve_interval ri = 0
    · rw [if_pos hmod]
      dsimp only
      rw [if_pos (hdvd.mpr hmod)] at hsd
      refine ⟨by rw [ihc.1], ?_⟩
      rw [rotationCount_cons, hc1, ihc.2]
      omega
    · rw [if_neg hmod]
      dsimp only
      rw [if_neg (fun hd => hmod (hdvd.mp hd))] at hsd
      refine ⟨by rw [ihc.1], ?_⟩
      rw [rotationCount_cons, hc2, ihc.2]
      omega

/-- With rotation disabled, no rotation call ever happens and the shared
counter never moves. -/
theorem scrape_run_no_rotate (ri : Option Nat) (connected : Bool) :
    ∀ (urls : List String) (c : Nat),
      rotationCount (scrape_run false ri connected c urls).2 = 0
      ∧ (scrape_run false ri connected c urls).1 = c := by
  intro urls
  induction urls with
  | nil => intro c; simp [scrape_run, rotationCount]
  | cons u us ih =>
    intro c
    have hu := scrape_single_events_no_rotate u ri connected c
    simp only [scrape_run, rotationCount_cons]
    rw [hu.2]
    have := ih c
    constructor
    · rw [hu.1, this.1]
    · exact this.2

/-- C5 (amended): with `rotate = true`, a connected controller and a fresh
counter, `k` onion `scrape_single` invocations trigger exactly
`k / N` rotation calls (`N` the resolved interval, default 5), each
rotation call immediately preceding the request it covers; however
`scrape_multiple` submits `scrape_single` with its default
`rotate = False`, so its candidate fetches never trigger the
counter-driven rotation. -/
theorem rotation_policy (url : String) (ri : Option Nat) (k : Nat)
    (hne : url ≠ "") (hon : strContains url ".onion" = true) :
    rotationCount (scrape_run true ri true 0 (List.replicate k url)).2
        = k / resolve_interval ri
    ∧ (∀ evs ∈ (scrape_run true ri true 0 (List.replicate k url)).2,
        evs = [ScrapeEv.request] ∨ evs = [ScrapeEv.rotate, ScrapeEv.request])
    ∧ (∀ (connected : Bool) (counter : Nat) (urls : List String),
        rotationCount (scrape_multiple_events connected counter urls).2 = 0) := by
  refine ⟨?_, ?_, ?_⟩
  · have h := (scrape_run_replicate_rot url hne hon ri k 0).2
    simpa using h
  · have hgen : ∀ (m : Nat) (c : Nat), ∀ evs ∈ (scrape_run true ri true c (List.replicate m url)).2,
        evs = [ScrapeEv.request] ∨ evs = [ScrapeEv.rotate, ScrapeEv.request] := by
      intro m
      induction m with
      | zero => intro c evs hevs; simp [scrape_run] at hevs
      | succ n ih =>
        intro c evs hevs
        simp only [List.replicate_succ, scrape_run] at hevs
        rcases List.mem_cons.mp hevs with rfl | h2
        · rcases scrape_single_events_shape url true ri true c hne with h | h
          · exact Or.inl h
          · exact Or.inr h
        · exact ih _ evs h2
    exact hgen k 0
  · intro connected counter urls
    have h := (scrape_run_no_rotate none connected urls counter).1
    simpa [scrape_multiple_events] using h

/-- Witness for C5: five onion scrapes with the default interval 5 and
`rotate = true` trigger exactly one rotation. -/
theorem rotation_policy_witness :
    rotationCount (scrape_run true none true 0 (List.replicate 5 "http://abc.onion")).2 = 1 := by
  have h := (rotation_policy "http://abc.onion" none 5 (by decide) (by decide)).1
  rw [h]
  decide

/-- Counterexample for C5 as stated: `scrape_multiple` has no `rotate`
parameter and submits `scrape_single(url_data)` with rotation disabled, so
five onion candidate fetches through `scrape_multiple` trigger zero
rotation calls, not one. -/
theorem rotation_policy_counterexample :
    rotationCount (scrape_multiple_events true 0 (List.replicate 5 "http://abc.onion")).2 = 0
    ∧ rotationCount (scrape_multiple_events true 0 (List.replicate 5 "http://abc.onion")).2
        ≠ 1 := by
  constructor <;> decide

/-- Helper: a two-dict `merge_iocs` call is the pointwise union with
key-presence tracking. -/
theorem merge_iocs_pair (a b : IndicatorMap) (t : String) :
    merge_iocs [a, b] t = match a t, b t with
      | none, none => none
      | some va, none => some va
      | none, some vb => some vb
      | some va, some vb => some (va ∪ vb) := by
  simp only [merge_iocs, List.foldl, merge_step]
  cases ha : a t <;> cases hb : b t <;> simp

/-- C7: `merge_iocs` is per-type set union and satisfies the algebraic
laws: associativity, commutativity, and idempotence of re-merging an
argument. -/
theorem merge_iocs_laws (a b c : IndicatorMap) :
    merge_iocs [merge_iocs [a, b], c] = merge_iocs [a, merge_iocs [b, c]]
    ∧ merge_iocs [a, b] = merge_iocs [b, a]
    ∧ merge_iocs [merge_iocs [a, b], a] = merge_iocs [a, b] := by
  refine ⟨funext fun t => ?_, funext fun t => ?_, funext fun t => ?_⟩
  · simp only [merge_iocs_pair]
    cases a t <;> cases b t <;> cases c t <;> simp [Finset.union_assoc]
  · simp only [merge_iocs_pair]
    cases a t <;> cases b t <;> simp [Finset.union_comm]
  · simp only [merge_iocs_pair]
    cases ha : a t <;> cases hb : b t <;> simp <;> ext x <;> simp [Finset.mem_union] <;> tauto

set_option maxRecDepth 200000 in
/-- C6 (amended): on the extraction-scenario input with all default types,
`extract_iocs` yields exactly `ipv4 = {"1.2.3.4"}`,
`domain = {"example.com"}`, `email = {"admin@example.com"}`,
`md5 = {"d41d8cd98f00b204e9800998ecf8427e"}` and
`bitcoin = {"1A1zP1eP5QGefi2DMPTfTL5SLmv7DivfNa"}`; every other category
is absent.  The `domain` pattern also fires (on the host part of the email
address), which the claim's list of non-empty categories omits. -/
theorem extract_iocs_scenario :
    extract_iocs iocInput none =
      [("ipv4", ["1.2.3.4"]), ("domain", ["example.com"]),
       ("email", ["admin@example.com"]),
       ("md5", ["d41d8cd98f00b204e9800998ecf8427e"]),
       ("bitcoin", ["1A1zP1eP5QGefi2DMPTfTL5SLmv7DivfNa"])] := by
  decide

set_option maxRecDepth 200000 in
/-- Counterexample for C6 as stated: the returned map has a non-empty
category outside the four listed ones — the `domain` pattern matches
`example.com` inside the email address. -/
theorem extract_iocs_scenario_counterexample :
    ¬ (∀ p ∈ extract_iocs iocInput none,
        p.1 = "email" ∨ p.1 = "ipv4" ∨ p.1 = "md5" ∨ p.1 = "bitcoin") := by
  decide

/-! Lemmas about the dict built by the aggregration loop of
`scrape_multiple`. -/

/-- Pairs of an updated dict come from the old dict or are the inserted
pair. -/
theorem dict_insert_mem (m : List (String × String)) (k v : String)
    (p : String × String) (hp : p ∈ dict_insert m k v) : p ∈ m ∨ p = (k, v) := by
  unfold dict_insert at hp
  split_ifs at hp with hcase
  · rcases List.mem_map.mp hp with ⟨q, hq, hfq⟩
    by_cases hqk : (q.1 == k) = true
    · rw [if_pos hqk] at hfq
      exact Or.inr hfq.symm
    · rw [if_neg hqk] at hfq
      exact Or.inl (hfq ▸ hq)
  · rcases List.mem_append.mp hp with h1 | h2
    · exact Or.inl h1
    · exact Or.inr (List.mem_singleton.mp h2)

/-- Inserting keeps the key list unchanged when the key is present, and
appends it otherwise. -/
theorem dict_insert_keys (m : List (String × String)) (k v : String) :
    (dict_insert m k v).map (fun p => p.1)
      = if m.any (fun p => p.1 == k) then m.map (fun p => p.1)
        else m.map (fun p => p.1) ++ [k] := by
  unfold dict_insert
  split_ifs with hcase
  · rw [List.map_map]
    refine List.map_congr_left ?_
    intro q _
    by_cases hqk : (q.1 == k) = true
    · simp only [Function.comp]
      rw [if_pos hqk]
      exact (eq_of_beq hqk).symm
    · simp only [Function.comp]
      rw [if_neg hqk]
  · simp

/-- Helper: pointwise-equal predicates give the same `any`. -/
theorem list_any_congr {A : Type} (p q : A → Bool) :
    ∀ (l : List A), (∀ a ∈ l, p a = q a) → l.any p = l.any q := by
  intro l
  induction l with
  | nil => intro _; rfl
  | cons a rest ih =>
    intro h
    simp only [List.any_cons, h a (List.mem_cons_self a rest),
      ih (fun b hb => h b (List.mem_cons_of_mem _ hb))]

/-- Inserting preserves distinctness of the keys. -/
theorem dict_insert_nodup (m : List (String × String)) (k v : String)
    (h : (m.map (fun p => p.1)).Nodup) :
    ((dict_insert m k v).map (fun p => p.1)).Nodup := by
  rw [dict_insert_keys]
  split_ifs with hcase
  · exact h
  · rw [List.nodup_append]
    refine ⟨h, List.nodup_singleton k, ?_⟩
    intro x hx hx2
    rw [List.mem_singleton] at hx2
    subst hx2
    rcases List.mem_map.mp hx with ⟨q, hq, hfq⟩
    exact hcase (List.any_eq_true.mpr ⟨q, hq, by simp [hfq]⟩)

/-- Key membership after an insert. -/
theorem dict_insert_any (m : List (String × String)) (k v l : String) :
    ((dict_insert m k v).any (fun p => p.1 == l))
      = (m.any (fun p => p.1 == l) || (k == l)) := by
  unfold dict_insert
  split_ifs with hcase
  · rw [List.any_map]
    have hcong : ∀ q ∈ m,
        ((fun (p : String × String) => p.1 == l) ∘
          (fun p => if (p.1 == k) = true then (k, v) else p)) q
          = ((fun (p : String × String) => p.1 == l) q) := by
      intro q _
      by_cases hqk : (q.1 == k) = true
      · simp only [Function.comp]
        rw [if_pos hqk]
        simp [eq_of_beq hqk]
      · simp only [Function.comp]
        rw [if_neg hqk]
    rw [list_any_congr _ _ m hcong]
    cases hkl : (k == l) with
    | true =>
      have hk := eq_of_beq hkl
      subst hk
      simp [hcase]
    | false => simp
  · rw [List.any_append]
    simp [List.any_cons]

/-- Distinct keys make per-key counts zero-or-one. -/
theorem countP_keys_nodup (l : String) :
    ∀ (m : List (String × String)), (m.map (fun p => p.1)).Nodup →
      m.countP (fun p => p.1 == l) = if m.any (fun p => p.1 == l) then 1 else 0 := by
  intro m
  induction m with
  | nil => intro _; rfl
  | cons q rest ih =>
    intro h
    rw [List.map_cons, List.nodup_cons] at h
    by_cases hql : (q.1 == l) = true
    · rw [List.countP_cons_of_pos _ _ (by simpa using hql)]
      have hz : rest.countP (fun p => p.1 == l) = 0 := by
        rw [List.countP_eq_zero]
        intro p hp hpl
        have h1 : p.1 = l := by simpa using hpl
        have h2 : q.1 = l := eq_of_beq hql
        exact h.1 (List.mem_map.mpr ⟨p, hp, by rw [h1, h2]⟩)
      rw [hz]
      simp [List.any_cons, hql]
    · rw [List.countP_cons_of_neg _ _ (by simp [hql])]
      rw [ih h.2]
      have hcond : ((q :: rest).any (fun p => p.1 == l)) = rest.any (fun p => p.1 == l) := by
        have hf : (q.1 == l) = false := by simpa using hql
        rw [List.any_cons, hf, Bool.false_or]
      rw [hcond]

/-- Per-key count across the whole aggregation fold of `scrape_multiple`. -/
theorem scrape_fold_countP (max_chars : Nat) (l : String) :
    ∀ (cs : List (SearchResult × WorkerOutcome)) (m : List (String × String)),
      (m.map (fun p => p.1)).Nodup →
      ((cs.foldl
          (fun acc c => dict_insert acc c.1.link (store_content max_chars c.1.title c.2))
          m).countP (fun p => p.1 == l))
        = if (m.any (fun p => p.1 == l) || cs.any (fun c => c.1.link == l))
          then 1 else 0 := by
  intro cs
  induction cs with
  | nil =>
    intro m h
    simp only [List.foldl_nil, List.any_nil, Bool.or_false]
    exact countP_keys_nodup l m h
  | cons c rest ih =>
    intro m h
    simp only [List.foldl_cons]
    rw [ih _ (dict_insert_nodup _ _ _ h)]
    rw [dict_insert_any]
    rw [List.any_cons, Bool.or_assoc]

/-- A pair survives an insert whose key either differs or carries the same
value. -/
theorem dict_insert_mem_keep (m : List (String × String)) (k v l w : String)
    (hmem : (l, w) ∈ m) (hcase : k = l → v = w) : (l, w) ∈ dict_insert m k v := by
  unfold dict_insert
  split_ifs with hany
  · refine List.mem_map.mpr ⟨(l, w), hmem, ?_⟩
    by_cases hlk : (((l, w) : String × String).1 == k) = true
    · rw [if_pos hlk]
      have hk : k = l := (eq_of_beq hlk).symm
      rw [hk, hcase hk]
    · rw [if_neg hlk]
  · exact List.mem_append.mpr (Or.inl hmem)

/-- A pair already in the accumulator survives the whole fold when every
later insert for its key re-stores the same value. -/
theorem scrape_fold_mem_keep (max_chars : Nat) (l w : String) :
    ∀ (cs : List (SearchResult × WorkerOutcome)) (m : List (String × String)),
      (l, w) ∈ m →
      (∀ c ∈ cs, c.1.link = l → store_content max_chars c.1.title c.2 = w) →
      (l, w) ∈ cs.foldl
        (fun acc c => dict_insert acc c.1.link (store_content max_chars c.1.title c.2)) m := by
  intro cs
  induction cs with
  | nil => intro m hm _; simpa using hm
  | cons c rest ih =>
    intro m hm hall
    simp only [List.foldl_cons]
    refine ih _ (dict_insert_mem_keep _ _ _ _ _ hm ?_)
      (fun d hd => hall d (List.mem_cons_of_mem _ hd))
    intro hkl
    exact hall c (List.mem_cons_self _ _) hkl

/-- A key absent from the accumulator but present among the completions
ends up in the fold, with the common stored value. -/
theorem scrape_fold_mem_new (max_chars : Nat) (l w : String) :
    ∀ (cs : List (SearchResult × WorkerOutcome)) (m : List (String × String)),
      (∀ p ∈ m, p.1 ≠ l) →
      (∃ c ∈ cs, c.1.link = l) →
      (∀ c ∈ cs, c.1.link = l → store_content max_chars c.1.title c.2 = w) →
      (l, w) ∈ cs.foldl
        (fun acc c => dict_insert acc c.1.link (store_content max_chars c.1.title c.2)) m := by
  intro cs
  induction cs with
  | nil =>
    intro m _ hex _
    rcases hex with ⟨c, hc, _⟩
    simp at hc
  | cons c rest ih =>
    intro m hnol hex hall
    simp only [List.foldl_cons]
    by_cases hcl : c.1.link = l
    · have hv : store_content max_chars c.1.title c.2 = w :=
        hall c (List.mem_cons_self _ _) hcl
      have hins : (l, w) ∈ dict_insert m c.1.link (store_content max_chars c.1.title c.2) := by
        unfold dict_insert
        have hany : m.any (fun p => p.1 == c.1.link) = false := by
          rw [List.any_eq_false]
          intro p hp
          simp only [beq_iff_eq]
          exact fun he => hnol p hp (he.trans hcl)
        rw [if_neg (by simp [hany])]
        rw [hcl, hv]
        exact List.mem_append.mpr (Or.inr (List.mem_singleton.mpr rfl))
      exact scrape_fold_mem_keep max_chars l w rest _ hins
        (fun d hd => hall d (List.mem_cons_of_mem _ hd))
    · refine ih _ ?_ ?_ ?_
      · intro p hp
        rcases dict_insert_mem _ _ _ p hp with h1 | h2
        · exact hnol p h1
        · rw [h2]; exact hcl
      · rcases hex with ⟨d, hd, hdl⟩
        rcases List.mem_cons.mp hd with rfl | hd2
        · exact absurd hdl hcl
        · exact ⟨d, hd2, hdl⟩
      · exact fun d hd => hall d (List.mem_cons_of_mem _ hd)

/-- The truncated content never exceeds the limit plus the 3-character
marker. -/
theorem truncate_length (n : Nat) (s : String) : (truncate n s).length ≤ n + 3 := by
  unfold truncate
  split_ifs with h
  · rw [String.length_append]
    have h1 : (String.mk (s.data.take n)).length = (s.data.take n).length := rfl
    have h2 : ("..." : String).length = 3 := rfl
    rw [h1, h2, List.length_take]
    omega
  · omega

/-- C8 (amended): every entry of the map returned by `scrape_multiple` is
the stored value of one completed candidate; for a candidate whose worker
returned content, the stored value is the content truncated to `max_chars`
with the `"..."` marker, hence at most `max_chars + 3` characters.  For a
candidate whose worker raised, the stored value is the raw title, which the
code does not truncate. -/
theorem scrape_multiple_truncation (completions : List (SearchResult × WorkerOutcome))
    (max_chars : Nat) :
    ∀ p ∈ scrape_multiple completions max_chars,
      ∃ c ∈ completions, p.1 = c.1.link ∧ p.2 = store_content max_chars c.1.title c.2
        ∧ (∀ s : String, c.2 = WorkerOutcome.ok s →
            p.2 = truncate max_chars s ∧ p.2.length ≤ max_chars + 3) := by
  have hgen : ∀ (cs : List (SearchResult × WorkerOutcome)) (m : List (String × String)),
      ∀ p ∈ cs.foldl
        (fun acc c => dict_insert acc c.1.link (store_content max_chars c.1.title c.2)) m,
      p ∈ m ∨ ∃ c ∈ cs, p = (c.1.link, store_content max_chars c.1.title c.2) := by
    intro cs
    induction cs with
    | nil => intro m p hp; exact Or.inl (by simpa using hp)
    | cons c rest ih =>
      intro m p hp
      simp only [List.foldl_cons] at hp
      rcases ih _ p hp with h1 | h2
      · rcases dict_insert_mem _ _ _ p h1 with h3 | h4
        · exact Or.inl h3
        · exact Or.inr ⟨c, List.mem_cons_self _ _, h4⟩
      · rcases h2 with ⟨d, hd, he⟩
        exact Or.inr ⟨d, List.mem_cons_of_mem _ hd, he⟩
  intro p hp
  rcases hgen completions [] p hp with h1 | h2
  · simp at h1
  · rcases h2 with ⟨c, hc, he⟩
    subst he
    refine ⟨c, hc, rfl, rfl, ?_⟩
    intro s hs
    constructor
    · simp [hs, store_content]
    · have hstore : store_content max_chars c.1.title c.2 = truncate max_chars s := by
        rw [hs]
        rfl
      show (store_content max_chars c.1.title c.2).length ≤ max_chars + 3
      rw [hstore]
      exact truncate_length _ _

/-- Witness for C8: a 5-character content with limit 3 is stored as the
3-character cut plus marker. -/
theorem scrape_multiple_truncation_witness :
    ("u", "hel...") ∈ scrape_multiple [(⟨"u", "t"⟩, WorkerOutcome.ok "hello")] 3
    ∧ ∃ c ∈ [((⟨"u", "t"⟩ : SearchResult), WorkerOutcome.ok "hello")],
        (("u", "hel...") : String × String).1 = c.1.link
        ∧ (("u", "hel...") : String × String).2 = store_content 3 c.1.title c.2
        ∧ (∀ s : String, c.2 = WorkerOutcome.ok s →
            (("u", "hel...") : String × String).2 = truncate 3 s
            ∧ (("u", "hel...") : String × String).2.length ≤ 3 + 3) :=
  ⟨by decide, scrape_multiple_truncation [(⟨"u", "t"⟩, WorkerOutcome.ok "hello")] 3
    ("u", "hel...") (by decide)⟩

/-- Counterexample for C8 as stated: a worker exception stores the raw
title without truncation, so a 1204-character title exceeds the default
limit 1200 plus the 3-character marker. -/
theorem scrape_multiple_truncation_counterexample :
    ¬ (∀ (completions : List (SearchResult × WorkerOutcome)) (max_chars : Nat),
        ∀ p ∈ scrape_multiple completions max_chars, p.2.length ≤ max_chars + 3) := by
  intro h
  have hm : ("u", longTitle) ∈ scrape_multiple [(⟨"u", longTitle⟩, WorkerOutcome.exc)] 1200 := by
    simp [scrape_multiple, dict_insert, store_content]
  have hlen : longTitle.length ≤ 1200 + 3 := by simpa using h _ 1200 _ hm
  have h1 : longTitle.length = (List.replicate 1204 'a').length := rfl
  rw [List.length_replicate] at h1
  omega

/-- C9 (amended): the map returned by `scrape_multiple` has exactly one
entry per distinct candidate link (candidates sharing a link collapse into
one dict key); and a candidate whose worker raised still contributes its
entry, whose value is the raw title, provided no other candidate shares
its link. -/
theorem scrape_multiple_entries (completions : List (SearchResult × WorkerOutcome))
    (max_chars : Nat) :
    (∀ l : String, (scrape_multiple completions max_chars).countP (fun p => p.1 == l)
        = if completions.any (fun c => c.1.link == l) then 1 else 0)
    ∧ (∀ e : SearchResult, (e, WorkerOutcome.exc) ∈ completions →
        (∀ c ∈ completions, c.1.link = e.link → c = (e, WorkerOutcome.exc)) →
        (e.link, e.title) ∈ scrape_multiple completions max_chars) := by
  constructor
  · intro l
    have h := scrape_fold_countP max_chars l completions [] (by simp)
    simpa [scrape_multiple] using h
  · intro e hmem huniq
    unfold scrape_multiple
    refine scrape_fold_mem_new max_chars e.link e.title completions [] (by simp)
      ⟨(e, WorkerOutcome.exc), hmem, rfl⟩ ?_
    intro c hc hcl
    rw [huniq c hc hcl]
    rfl

/-- Witness for C9: a single candidate whose worker raised still yields
the entry mapping its link to its title. -/
theorem scrape_multiple_entries_witness :
    ("u", "t") ∈ scrape_multiple [(⟨"u", "t"⟩, WorkerOutcome.exc)] 1200 :=
  (scrape_multiple_entries [(⟨"u", "t"⟩, WorkerOutcome.exc)] 1200).2
    ⟨"u", "t"⟩ (by decide) (by decide)

/-- Counterexample for C9 as stated: two candidates with the same link
produce a single map entry, so the map does not have one entry per input
candidate. -/
theorem scrape_multiple_entries_counterexample :
    ¬ (∀ (completions : List (SearchResult × WorkerOutcome)) (max_chars : Nat),
        (scrape_multiple completions max_chars).length = completions.length) := by
  intro h
  exact absurd
    (h [(⟨"u", "a"⟩, WorkerOutcome.ok "x"), (⟨"u", "b"⟩, WorkerOutcome.ok "y")] 5)
    (by decide)


end Robin
